import Mathlib

/-!
Shallow embedding of the `microkernel-project` core
(`kernel/microkernel.py`, `kernel/ipc.py`, `kernel/scheduler.py`).

Python objects become Lean records; the mutable kernel singleton becomes an
explicit `Kernel` state threaded through the operations; Python `None` /
exceptions become `Option`; machine integers are `Int`/`Nat` (the sizes in
the source are small Python ints, no overflow).  The message payload type
(`Any` in the source) is a type parameter `α`.
-/

namespace Microkernel

/-- `ProcessState` enum from `microkernel.py`. -/
inductive ProcessState where
  | ready
  | running
  | blocked
  | terminated
deriving DecidableEq, Repr

/-- The `Process` class: pid, name, priority, lifecycle state, the
memory ledger entry `memory_allocated`, and creation timestamp.
The optional thread and context dict carry no kernel-visible data used by
any operation modelled here. -/
structure Process where
  pid : String
  name : String
  priority : Int
  state : ProcessState
  memory_allocated : Int
  created_at : Nat
deriving DecidableEq, Repr

/-- A kernel IPC message dict as built in `Microkernel.send_message`:
keys `from`, `to`, `message`, `timestamp`. -/
structure KMsg (α : Type) where
  from_pid : String
  to_pid : String
  payload : α
  timestamp : Nat
deriving DecidableEq, Repr

/-- The mutable state of the `Microkernel` singleton.

`heap` models the Python heap of `Process` objects (allocation is recorded
on the object even when it is not, or no longer, in the process table);
`table` is the key list of the `self.processes` dict (insertion order);
`queues` is the `self.message_queue` dict as an association list;
the three counters are the entries of `self.stats` that the modelled
operations touch. -/
structure Kernel (α : Type) where
  heap : List Process
  table : List String
  memory_pool : Int
  memory_used : Int
  queues : List (String × List (KMsg α))
  processes_created : Nat
  processes_terminated : Nat
  messages_sent : Nat
deriving DecidableEq, Repr

/-- The freshly constructed kernel: 1 MiB pool, nothing allocated. -/
def initKernel (α : Type) : Kernel α :=
  { heap := []
    table := []
    memory_pool := 1024 * 1024
    memory_used := 0
    queues := []
    processes_created := 0
    processes_terminated := 0
    messages_sent := 0 }

/-- Look a `Process` object up on the heap by pid (models holding a
reference to the object). -/
def findProc (k : Kernel α) (pid : String) : Option Process :=
  k.heap.find? (fun p => p.pid == pid)

/-- `Microkernel.allocate_memory(process, size)`: fails (returns `false`,
changes nothing) when `memory_used + size > memory_pool`; otherwise adds
`size` to `memory_used` and overwrites the object's `memory_allocated`
with `size`.  The process is named by pid; sizes are the non-negative
Python ints the kernel passes. -/
def allocate_memory (k : Kernel α) (pid : String) (size : Nat) : Kernel α × Bool :=
  if k.memory_used + (size : Int) > k.memory_pool then
    (k, false)
  else
    ({ k with
        memory_used := k.memory_used + (size : Int)
        heap := k.heap.map (fun p =>
          if p.pid == pid then { p with memory_allocated := (size : Int) } else p) },
      true)

/-- `Microkernel.deallocate_memory(process)`: when the object's
`memory_allocated` is positive, subtracts it from `memory_used` and zeroes
it on the object, returning `true`; otherwise returns `false` and changes
nothing.  The `none` branch is unreachable from Python (a caller always
holds an actual object). -/
def deallocate_memory (k : Kernel α) (pid : String) : Kernel α × Bool :=
  match findProc k pid with
  | none => (k, false)
  | some p =>
    if p.memory_allocated > 0 then
      ({ k with
          memory_used := k.memory_used - p.memory_allocated
          heap := k.heap.map (fun q =>
            if q.pid == pid then { q with memory_allocated := 0 } else q) },
        true)
    else (k, false)

/-- `Microkernel.create_process(name, ..., priority)`: builds a fresh
`Process` (state READY, no memory), reserves the fixed 1024-byte quota via
`allocate_memory` — raising (modelled as `none`, state unchanged, the
garbage object discarded) when that fails — then inserts the record into
the table, creates its empty inbox and bumps `processes_created`.
The uuid-generated pid and the wall-clock time are passed in. -/
def create_process (k : Kernel α) (pid : String) (name : String)
    (priority : Int) (now : Nat) : Kernel α × Option String :=
  let p : Process :=
    { pid := pid, name := name, priority := priority, state := .ready
      memory_allocated := 0, created_at := now }
  let k1 := { k with heap := k.heap ++ [p] }
  match allocate_memory k1 pid 1024 with
  | (_, false) => (k, none)
  | (k2, true) =>
    ({ k2 with
        table := k2.table ++ [pid]
        queues := k2.queues ++ [(pid, [])]
        processes_created := k2.processes_created + 1 },
      some pid)

/-- `Microkernel.terminate_process(pid)`: `false` when the pid is not in
the table; otherwise marks the object TERMINATED, frees its memory via
`deallocate_memory`, deletes its message queue and table entry, bumps
`processes_terminated`, and returns `true`. -/
def terminate_process (k : Kernel α) (pid : String) : Kernel α × Bool :=
  if pid ∈ k.table then
    let k1 := { k with
      heap := k.heap.map (fun p =>
        if p.pid == pid then { p with state := .terminated } else p) }
    let k2 := (deallocate_memory k1 pid).1
    ({ k2 with
        queues := k2.queues.filter (fun q => q.1 ≠ pid)
        table := k2.table.filter (fun q => q ≠ pid)
        processes_terminated := k2.processes_terminated + 1 },
      true)
  else (k, false)

/-- `Microkernel.list_processes()`: the values of the `self.processes`
dict in insertion order. -/
def list_processes (k : Kernel α) : List Process :=
  k.table.filterMap (fun pid => findProc k pid)

/-- `Microkernel.get_process(pid)`: `self.processes.get(pid)`. -/
def get_process (k : Kernel α) (pid : String) : Option Process :=
  if pid ∈ k.table then findProc k pid else none

/-- `Microkernel.send_message(from_pid, to_pid, message)`: fails iff the
receiver has no message queue; otherwise appends the message dict to the
receiver's queue and bumps `messages_sent`.  The sender is never
validated. -/
def send_message (k : Kernel α) (from_pid to_pid : String) (payload : α)
    (now : Nat) : Kernel α × Bool :=
  match k.queues.lookup to_pid with
  | none => (k, false)
  | some _ =>
    ({ k with
        queues := k.queues.map (fun q =>
          if q.1 == to_pid then
            (q.1, q.2 ++ [{ from_pid := from_pid, to_pid := to_pid
                            payload := payload, timestamp := now }])
          else q)
        messages_sent := k.messages_sent + 1 },
      true)

/-- `Microkernel.receive_message(pid)`: pops and returns the head of the
process's queue, or `none` when the pid has no queue or the queue is
empty. -/
def receive_message (k : Kernel α) (pid : String) : Kernel α × Option (KMsg α) :=
  match k.queues.lookup pid with
  | none => (k, none)
  | some [] => (k, none)
  | some (m :: _) =>
    ({ k with
        queues := k.queues.map (fun q =>
          if q.1 == pid then (q.1, q.2.tail) else q) },
      some m)

end Microkernel

namespace IPC

open Microkernel

/-- The `Message` class from `ipc.py`: sender, receiver, payload, kind
tag, timestamp, and the id derived from them in the constructor. -/
structure Message (α : Type) where
  sender : String
  receiver : String
  data : α
  msg_type : String
  timestamp : Nat
  id : String
deriving DecidableEq, Repr

/-- The `Message.__init__` constructor, deriving the id from sender,
receiver and timestamp. -/
def mkMessage (sender receiver : String) (data : α) (msg_type : String)
    (now : Nat) : Message α :=
  { sender := sender, receiver := receiver, data := data
    msg_type := msg_type, timestamp := now
    id := sender ++ "-" ++ receiver ++ "-" ++ toString now }

/-- The `Semaphore` class: counter, its initial value, and the list of
waiting process ids. -/
structure Semaphore where
  name : String
  value : Int
  initial_value : Int
  waiting_processes : List String
deriving DecidableEq, Repr

/-- `Semaphore.__init__(name, initial_value)`. -/
def mkSemaphore (name : String) (initial_value : Int) : Semaphore :=
  { name := name, value := initial_value, initial_value := initial_value
    waiting_processes := [] }

/-- One completed or parked `Semaphore.acquire(process_id, timeout)` call,
as observable under the semaphore's lock.  When `value > 0` the loop is
not entered (or is exited after a wakeup): the value is decremented, the
caller leaves the waiting list, result `true`.  Otherwise the caller is
appended to the waiting list (if absent); with a timeout the call
eventually removes the caller and returns `false`, without one it stays
parked in the waiting list (no return value is produced — the `false`
here is the state seen while parked; a later successful wakeup is a
further `acquire` step). -/
def Semaphore.acquire (s : Semaphore) (process_id : String)
    (timeout : Bool) : Semaphore × Bool :=
  if s.value > 0 then
    ({ s with value := s.value - 1
              waiting_processes := s.waiting_processes.erase process_id },
      true)
  else if timeout then
    ({ s with waiting_processes := s.waiting_processes.erase process_id },
      false)
  else
    ({ s with waiting_processes :=
        if process_id ∈ s.waiting_processes then s.waiting_processes
        else s.waiting_processes ++ [process_id] },
      false)

/-- `Semaphore.release(process_id)`: increments the value and notifies
one waiter (the wakeup itself is a later `acquire` step). -/
def Semaphore.release (s : Semaphore) : Semaphore :=
  { s with value := s.value + 1 }

/-- The `SharedMemory` class: name, declared size, key-value data dict,
access counter, authorization list. -/
structure SharedMemory (α : Type) where
  name : String
  size : Int
  data : List (String × α)
  access_count : Nat
  authorized_processes : List String
deriving DecidableEq, Repr

/-- `SharedMemory.__init__(name, size)`. -/
def mkSharedMemory (α : Type) (name : String) (size : Int) : SharedMemory α :=
  { name := name, size := size, data := [], access_count := 0
    authorized_processes := [] }

/-- `SharedMemory.authorize_process(process_id)`: appends the id to the
authorization list if absent. -/
def SharedMemory.authorize_process (s : SharedMemory α)
    (process_id : String) : SharedMemory α :=
  if process_id ∈ s.authorized_processes then s
  else { s with authorized_processes := s.authorized_processes ++ [process_id] }

/-- Python dict assignment `d[key] = value` on an association list. -/
def dictSet (d : List (String × α)) (key : String) (value : α) :
    List (String × α) :=
  if (d.lookup key).isSome then
    d.map (fun e => if e.1 == key then (e.1, value) else e)
  else d ++ [(key, value)]

/-- `SharedMemory.read(process_id, key)`: `none` (nothing changed) for an
unauthorized caller; otherwise bumps the access counter and returns
`self.data.get(key)`. -/
def SharedMemory.read (s : SharedMemory α) (process_id : String)
    (key : String) : SharedMemory α × Option α :=
  if process_id ∉ s.authorized_processes then (s, none)
  else ({ s with access_count := s.access_count + 1 }, s.data.lookup key)

/-- `SharedMemory.write(process_id, key, value)`: `false` (nothing
changed) for an unauthorized caller; otherwise stores the value and bumps
the access counter. -/
def SharedMemory.write (s : SharedMemory α) (process_id : String)
    (key : String) (value : α) : SharedMemory α × Bool :=
  if process_id ∉ s.authorized_processes then (s, false)
  else
    ({ s with data := dictSet s.data key value
              access_count := s.access_count + 1 },
      true)

/-- The `Pipe` class: name, bounded FIFO queue with its capacity, and the
reader / writer authorization lists. -/
structure Pipe (α : Type) where
  name : String
  max_size : Nat
  queue : List α
  readers : List String
  writers : List String
deriving DecidableEq, Repr

/-- `Pipe.__init__(name, max_size)`. -/
def mkPipe (α : Type) (name : String) (max_size : Nat) : Pipe α :=
  { name := name, max_size := max_size, queue := [], readers := []
    writers := [] }

/-- `Pipe.add_reader(process_id)`. -/
def Pipe.add_reader (p : Pipe α) (process_id : String) : Pipe α :=
  if process_id ∈ p.readers then p
  else { p with readers := p.readers ++ [process_id] }

/-- `Pipe.add_writer(process_id)`. -/
def Pipe.add_writer (p : Pipe α) (process_id : String) : Pipe α :=
  if process_id ∈ p.writers then p
  else { p with writers := p.writers ++ [process_id] }

/-- `Pipe.write(process_id, data, timeout)`: `false` for a caller not in
the writer list; `false` (queue.Full after the timeout) when the bounded
queue stays full; otherwise enqueues and returns `true`. -/
def Pipe.write (p : Pipe α) (process_id : String) (data : α) :
    Pipe α × Bool :=
  if process_id ∉ p.writers then (p, false)
  else if p.queue.length ≥ p.max_size then (p, false)
  else ({ p with queue := p.queue ++ [data] }, true)

/-- `Pipe.read(process_id, timeout)`: `none` for a caller not in the
reader list; `none` (queue.Empty after the timeout) when the queue stays
empty; otherwise dequeues and returns the oldest item. -/
def Pipe.read (p : Pipe α) (process_id : String) : Pipe α × Option α :=
  if process_id ∉ p.readers then (p, none)
  else
    match p.queue with
    | [] => (p, none)
    | d :: rest => ({ p with queue := rest }, some d)

/-- The mutable state of the `IPCManager` singleton: per-receiver message
lists and the three name-keyed registries. -/
structure IPCManager (α : Type) where
  messages : List (String × List (Message α))
  semaphores : List (String × Semaphore)
  shared_memories : List (String × SharedMemory α)
  pipes : List (String × Pipe α)
deriving DecidableEq, Repr

/-- `IPCManager.send_message(sender, receiver, data, msg_type)`: fails
unless *both* sender and receiver exist in the kernel's process table
(`kernel.get_process`); otherwise appends a fresh `Message` to the
receiver's list, creating it when missing. -/
def IPCManager.send_message (m : IPCManager α) (k : Kernel α)
    (sender receiver : String) (data : α) (msg_type : String) (now : Nat) :
    IPCManager α × Bool :=
  if (get_process k sender).isNone ∨ (get_process k receiver).isNone then
    (m, false)
  else
    let msg := mkMessage sender receiver data msg_type now
    let base :=
      if (m.messages.lookup receiver).isSome then m.messages
      else m.messages ++ [(receiver, [])]
    ({ m with messages := base.map (fun e =>
        if e.1 == receiver then (e.1, e.2 ++ [msg]) else e) },
      true)

/-- `IPCManager.__init__`: empty registries. -/
def initIPCManager (α : Type) : IPCManager α :=
  { messages := [], semaphores := [], shared_memories := [], pipes := [] }

/-- `IPCManager.create_pipe(name, max_size)`: fails on a taken name,
otherwise registers a fresh pipe. -/
def IPCManager.create_pipe (m : IPCManager α) (name : String)
    (max_size : Nat) : IPCManager α × Bool :=
  if (m.pipes.lookup name).isSome then (m, false)
  else ({ m with pipes := m.pipes ++ [(name, mkPipe α name max_size)] }, true)

/-- `IPCManager.add_pipe_reader(pipe_name, process_id)`: `false` on an
unknown name, otherwise authorizes the reader. -/
def IPCManager.add_pipe_reader (m : IPCManager α) (pipe_name : String)
    (process_id : String) : IPCManager α × Bool :=
  match m.pipes.lookup pipe_name with
  | none => (m, false)
  | some _ =>
    ({ m with pipes := m.pipes.map (fun e =>
        if e.1 == pipe_name then (e.1, e.2.add_reader process_id) else e) },
      true)

/-- `IPCManager.read_pipe(pipe_name, process_id, timeout)`: `none` when
the name is unknown, otherwise delegates to `Pipe.read`. -/
def IPCManager.read_pipe (m : IPCManager α) (pipe_name : String)
    (process_id : String) : IPCManager α × Option α :=
  match m.pipes.lookup pipe_name with
  | none => (m, none)
  | some p =>
    let r := p.read process_id
    ({ m with pipes := m.pipes.map (fun e =>
        if e.1 == pipe_name then (e.1, r.1) else e) },
      r.2)

end IPC

namespace Sched

open Microkernel

/-- The order `ready_processes.sort(key=lambda p: (-p.priority, p.created_at))`
sorts by in `Scheduler._select_next_process`: higher priority first, then
earlier creation time.  Python's sort is stable; `List.insertionSort` is a
stable sort for the same total preorder. -/
def schedLE (p q : Process) : Prop :=
  q.priority < p.priority ∨ (p.priority = q.priority ∧ p.created_at ≤ q.created_at)

instance : DecidableRel schedLE := fun p q =>
  decidable_of_iff
    (q.priority < p.priority ∨ (p.priority = q.priority ∧ p.created_at ≤ q.created_at))
    Iff.rfl

instance : IsTotal Process schedLE := by
  constructor
  intro p q
  unfold schedLE
  rcases lt_trichotomy p.priority q.priority with h | h | h
  · exact Or.inr (Or.inl h)
  · rcases Nat.le_total p.created_at q.created_at with h2 | h2
    · exact Or.inl (Or.inr ⟨h, h2⟩)
    · exact Or.inr (Or.inr ⟨h.symm, h2⟩)
  · exact Or.inl (Or.inl h)

instance : IsTrans Process schedLE := by
  constructor
  intro a b c hab hbc
  unfold schedLE at *
  rcases hab with h1 | ⟨h1, h1t⟩
  · rcases hbc with h2 | ⟨h2, _⟩
    · exact Or.inl (h2.trans h1)
    · exact Or.inl (h2 ▸ h1)
  · rcases hbc with h2 | ⟨h2, h2t⟩
    · exact Or.inl (h1 ▸ h2)
    · exact Or.inr ⟨h1.trans h2, h1t.trans h2t⟩

/-- `Scheduler._select_next_process(ready_processes)` of the base (round
robin) scheduler, with the scheduler's `self.current_process` passed
explicitly.  Sorts the ready list by `(priority descending, created_at
ascending)`; when a current process exists and occurs in the ready list
and its priority band in the sorted list holds more than one process,
returns the band member cyclically after the current one; otherwise the
first element of the sorted list. -/
def select_next_process (current : Option Process) (ready : List Process) :
    Option Process :=
  match ready with
  | [] => none
  | _ :: _ =>
    let sorted : List Process := List.insertionSort schedLE ready
    match current with
    | some cur =>
      if cur ∈ sorted then
        let same_priority := sorted.filter (fun p => p.priority == cur.priority)
        if 1 < same_priority.length then
          same_priority[(same_priority.indexOf cur + 1) % same_priority.length]?
        else sorted.head?
      else sorted.head?
    | none => sorted.head?

/-- The claim's phrase "the cyclically next process within that band after
the current one", stated from the spec's words. -/
def cyclicNextAfter (band : List Process) (cur : Process) : Option Process :=
  band[(band.indexOf cur + 1) % band.length]?

end Sched

namespace MemTrace

open Microkernel

/-- One public memory operation of the kernel surface.  `newObj` is the
bare `Process(...)` constructor (a caller holding a fresh object, not yet
in the table), the others are the four public kernel methods named by the
claims. -/
inductive MemOp where
  | newObj (pid name : String) (priority : Int) (now : Nat)
  | alloc (pid : String) (size : Nat)
  | dealloc (pid : String)
  | createP (pid name : String) (priority : Int) (now : Nat)
  | termP (pid : String)
deriving DecidableEq, Repr

/-- Apply one operation to the kernel state, keeping the state only (the
returned bool/pid is dropped).  Freshness of uuid-generated pids is
modelled by making an object-creating step with a colliding pid a no-op,
and an `alloc` on a pid with no live object (impossible in Python, where
the caller holds the object) a no-op. -/
def stepOp (k : Kernel α) (op : MemOp) : Kernel α :=
  match op with
  | .newObj pid name priority now =>
    if (findProc k pid).isSome then k
    else { k with heap := k.heap ++
      [{ pid := pid, name := name, priority := priority, state := .ready
         memory_allocated := 0, created_at := now }] }
  | .alloc pid size =>
    if (findProc k pid).isSome then (allocate_memory k pid size).1 else k
  | .dealloc pid => (deallocate_memory k pid).1
  | .createP pid name priority now =>
    if (findProc k pid).isSome then k
    else (create_process k pid name priority now).1
  | .termP pid => (terminate_process k pid).1

/-- Run a sequence of public memory operations. -/
def runOps (k : Kernel α) (ops : List MemOp) : Kernel α :=
  ops.foldl stepOp k

/-- The sum of `memory_allocated` over every process object the pool has
interacted with (the ledger the spec says `memory_used` agrees with). -/
def sumAlloc (k : Kernel α) : Int :=
  (k.heap.map (fun p => p.memory_allocated)).sum

/-- The allocation currently recorded for a process object. -/
def allocRecorded (k : Kernel α) (pid : String) : Int :=
  match findProc k pid with
  | none => 0
  | some p => p.memory_allocated

/-- An `alloc` step is disciplined when its target currently records no
allocation (this is how the kernel itself always calls
`allocate_memory`: exactly once, from `create_process`, on a fresh
object). -/
def allocTargetFree (k : Kernel α) (op : MemOp) : Bool :=
  match op with
  | .alloc pid _ =>
    match findProc k pid with
    | none => true
    | some p => p.memory_allocated == 0
  | _ => true

/-- A disciplined run never re-allocates on a process that already holds
memory. -/
def disciplined (k : Kernel α) : List MemOp → Bool
  | [] => true
  | op :: rest => allocTargetFree k op && disciplined (stepOp k op) rest

/-- The reachable-state invariant of the memory pool: heap pids are
distinct, every recorded allocation is non-negative, and the ledger sum
is bounded by `memory_used`, itself bounded by the capacity. -/
def KInv (k : Kernel α) : Prop :=
  (k.heap.map (fun p => p.pid)).Nodup ∧
  (∀ p ∈ k.heap, 0 ≤ p.memory_allocated) ∧
  sumAlloc k ≤ k.memory_used ∧
  k.memory_used ≤ k.memory_pool

end MemTrace

namespace SemTrace

open IPC

/-- One completed semaphore interaction: an `acquire` call (succeeding,
timing out, or parking) or a `release`. -/
inductive SemOp where
  | acq (process_id : String) (timeout : Bool)
  | rel (process_id : String)
deriving DecidableEq, Repr

/-- Apply one semaphore operation, keeping the state. -/
def semStep (s : Semaphore) (op : SemOp) : Semaphore :=
  match op with
  | .acq pid t => (s.acquire pid t).1
  | .rel _ => s.release

/-- Run a sequence of acquire/release operations. -/
def runSemOps (s : Semaphore) (ops : List SemOp) : Semaphore :=
  ops.foldl semStep s

end SemTrace

namespace Witnesses

open Microkernel IPC Sched

/-- A kernel whose pool is entirely in use (free memory = 0 < 1024). -/
def fullKernel : Kernel Nat :=
  { initKernel Nat with memory_used := 1024 * 1024 }

/-- A kernel holding one freshly created process `"p1"`. -/
def oneProcKernel : Kernel Nat :=
  (create_process (initKernel Nat) "p1" "editor" 1 5).1

/-- An IPC manager with one pipe `"p"`, reader `"r"`, empty queue. -/
def onePipeManager : IPCManager Nat :=
  (IPCManager.add_pipe_reader
    (IPCManager.create_pipe (initIPCManager Nat) "p" 100).1 "p" "r").1

/-- A shared-memory segment with `"a"` authorized. -/
def oneAuthSeg : SharedMemory Nat :=
  (mkSharedMemory Nat "seg" 1024).authorize_process "a"

/-- Three ready processes for the scheduler: two in the priority-2 band,
one at priority 1. -/
def pw1 : Process :=
  { pid := "w1", name := "a", priority := 2, state := .ready
    memory_allocated := 0, created_at := 1 }

def pw2 : Process :=
  { pid := "w2", name := "b", priority := 2, state := .ready
    memory_allocated := 0, created_at := 2 }

def pw3 : Process :=
  { pid := "w3", name := "c", priority := 1, state := .ready
    memory_allocated := 0, created_at := 3 }

end Witnesses

namespace Aux

open Microkernel IPC

theorem lookup_cons {β : Type} (ak : String) (av : β)
    (t : List (String × β)) (key : String) :
    ((ak, av) :: t).lookup key = if key == ak then some av else t.lookup key := by
  cases h : key == ak <;> simp [List.lookup, h]

theorem map_update_field {γ : Type} (l : List Process) (pid : String)
    (f : Process → Process) (g : Process → γ) (hf : ∀ p, g (f p) = g p) :
    (l.map (fun p => if p.pid == pid then f p else p)).map g = l.map g := by
  induction l with
  | nil => rfl
  | cons a t ih =>
    rw [List.map_cons, List.map_cons, List.map_cons, ih]
    cases a.pid == pid
    · rw [if_neg (by simp)]
    · rw [if_pos rfl, hf]

theorem map_update_eq_self (l : List Process) (pid : String)
    (f : Process → Process)
    (h : l.find? (fun p => p.pid == pid) = none) :
    l.map (fun p => if p.pid == pid then f p else p) = l := by
  induction l with
  | nil => rfl
  | cons a t ih =>
    rw [List.find?_cons] at h
    cases hc : a.pid == pid with
    | true => simp [hc] at h
    | false =>
      simp only [hc] at h
      rw [List.map_cons, ih h, if_neg (by simp [hc])]

theorem sum_mem_update (l : List Process) (pid : String) (v : Int) (p : Process)
    (hnd : (l.map (fun q => q.pid)).Nodup)
    (hfind : l.find? (fun q => q.pid == pid) = some p) :
    ((l.map (fun q =>
        if q.pid == pid then { q with memory_allocated := v } else q)).map
          (fun q => q.memory_allocated)).sum
      = (l.map (fun q => q.memory_allocated)).sum - p.memory_allocated + v := by
  induction l with
  | nil => simp at hfind
  | cons a t ih =>
    rw [List.find?_cons] at hfind
    rw [List.map_cons, List.nodup_cons] at hnd
    cases hc : a.pid == pid with
    | true =>
      simp only [hc] at hfind
      injection hfind with hap
      rw [← hap]
      have hpid : a.pid = pid := eq_of_beq hc
      have hnone : t.find? (fun q => q.pid == pid) = none := by
        rw [List.find?_eq_none]
        intro q hq hqc
        exact hnd.1 (by
          rw [List.mem_map]
          exact ⟨q, hq, by rw [eq_of_beq hqc, hpid]⟩)
      rw [List.map_cons, if_pos hc, map_update_eq_self t pid _ hnone]
      rw [List.map_cons, List.sum_cons, List.map_cons, List.sum_cons]
      have hv : ({ a with memory_allocated := v } : Process).memory_allocated = v := rfl
      rw [hv]
      ring
    | false =>
      simp only [hc] at hfind
      rw [List.map_cons, if_neg (by simp [hc])]
      rw [List.map_cons, List.sum_cons, List.map_cons, List.sum_cons,
        ih hnd.2 hfind]
      ring

theorem find?_state_update (l : List Process) (pid : String)
    (st : ProcessState) :
    (l.map (fun p =>
        if p.pid == pid then { p with state := st } else p)).find?
          (fun p => p.pid == pid)
      = (l.find? (fun p => p.pid == pid)).map
          (fun p => { p with state := st }) := by
  induction l with
  | nil => rfl
  | cons a t ih =>
    rw [List.map_cons, List.find?_cons, List.find?_cons]
    cases hc : a.pid == pid with
    | true =>
      rw [if_pos rfl]
      simp [hc]
    | false =>
      rw [if_neg (by simp)]
      simp only [hc]
      exact ih

theorem nonneg_mem_update (l : List Process) (pid : String) (v : Int)
    (hv : 0 ≤ v) (h : ∀ p ∈ l, 0 ≤ p.memory_allocated) :
    ∀ q ∈ l.map (fun p =>
        if p.pid == pid then { p with memory_allocated := v } else p),
      0 ≤ q.memory_allocated := by
  intro q hq
  rw [List.mem_map] at hq
  obtain ⟨p, hp, rfl⟩ := hq
  cases hc : p.pid == pid
  · simpa [hc] using h p hp
  · simpa [hc] using hv

theorem lookup_map_value {β : Type} (qs : List (String × β)) (key : String)
    (g : β → β) (l : β) (h : qs.lookup key = some l) :
    (qs.map (fun q => if q.1 == key then (q.1, g q.2) else q)).lookup key
      = some (g l) := by
  induction qs with
  | nil => simp [List.lookup] at h
  | cons a t ih =>
    obtain ⟨ak, av⟩ := a
    rw [lookup_cons] at h
    rw [List.map_cons]
    by_cases hk : key = ak
    · subst hk
      rw [if_pos (beq_self_eq_true key)] at h
      injection h with hl
      rw [if_pos (beq_self_eq_true key)]
      rw [lookup_cons, if_pos (beq_self_eq_true key), hl]
    · have h1 : (key == ak) = false := beq_false_of_ne hk
      have h2 : (ak == key) = false := beq_false_of_ne (Ne.symm hk)
      rw [if_neg (by simp [h1])] at h
      rw [if_neg (by simp [h2])]
      rw [lookup_cons, if_neg (by simp [h1]), ih h]

theorem lookup_append_of_none {β : Type} (d l2 : List (String × β))
    (key : String) (h : d.lookup key = none) :
    (d ++ l2).lookup key = l2.lookup key := by
  induction d with
  | nil => rfl
  | cons a t ih =>
    obtain ⟨ak, av⟩ := a
    rw [lookup_cons] at h
    by_cases hk : key = ak
    · subst hk
      rw [if_pos (beq_self_eq_true key)] at h
      exact absurd h (by simp)
    · have h1 : (key == ak) = false := beq_false_of_ne hk
      rw [if_neg (by simp [h1])] at h
      rw [List.cons_append, lookup_cons, if_neg (by simp [h1]), ih h]

theorem lookup_filter_ne {β : Type} (qs : List (String × β)) (key : String) :
    (qs.filter (fun q => q.1 ≠ key)).lookup key = none := by
  induction qs with
  | nil => rfl
  | cons a t ih =>
    obtain ⟨ak, av⟩ := a
    rw [List.filter_cons]
    by_cases hk : ak = key
    · subst hk
      rw [if_neg (by simp)]
      exact ih
    · rw [if_pos (by simp [hk])]
      have h1 : (key == ak) = false := beq_false_of_ne (Ne.symm hk)
      rw [lookup_cons, if_neg (by simp [h1])]
      exact ih

theorem lookup_dictSet {β : Type} (d : List (String × β)) (key : String)
    (v : β) : (dictSet d key v).lookup key = some v := by
  unfold dictSet
  cases h : d.lookup key with
  | some l =>
    rw [if_pos (show (some l).isSome = true from rfl)]
    exact lookup_map_value d key (fun _ => v) l h
  | none =>
    rw [if_neg (by simp)]
    rw [lookup_append_of_none d _ key h, lookup_cons,
      if_pos (beq_self_eq_true key)]

theorem mem_of_getElem?_eq_some {γ : Type} {l : List γ} {i : Nat} {a : γ}
    (h : l[i]? = some a) : a ∈ l := by
  obtain ⟨hi, rfl⟩ := List.getElem?_eq_some.mp h
  exact List.getElem_mem hi

end Aux


namespace MemTrace

open Microkernel Aux

theorem sumAlloc_nonneg (k : Kernel α)
    (h : ∀ p ∈ k.heap, 0 ≤ p.memory_allocated) : 0 ≤ sumAlloc k := by
  apply List.sum_nonneg
  intro x hx
  rw [List.mem_map] at hx
  obtain ⟨p, hp, rfl⟩ := hx
  exact h p hp

theorem inv_allocate (k : Kernel α) (pid : String) (size : Nat)
    (h : KInv k) : KInv (allocate_memory k pid size).1 := by
  obtain ⟨hnd, hnn, hle, hcap⟩ := h
  unfold allocate_memory
  by_cases hg : k.memory_used + (size : Int) > k.memory_pool
  · rw [if_pos hg]
    exact ⟨hnd, hnn, hle, hcap⟩
  · rw [if_neg hg]
    push_neg at hg
    unfold KInv sumAlloc at *
    refine ⟨?_, ?_, ?_, ?_⟩ <;> dsimp only
    · rw [map_update_field k.heap pid
        (fun p => { p with memory_allocated := (size : Int) })
        (fun p => p.pid) (fun p => rfl)]
      exact hnd
    · exact nonneg_mem_update k.heap pid _ (Int.natCast_nonneg size) hnn
    · cases hfind : k.heap.find? (fun q => q.pid == pid) with
      | none =>
        rw [map_update_eq_self k.heap pid _ hfind]
        have h0 : (0 : Int) ≤ (size : Int) := Int.natCast_nonneg size
        omega
      | some p =>
        have hp0 : 0 ≤ p.memory_allocated :=
          hnn p (List.mem_of_find?_eq_some hfind)
        rw [sum_mem_update k.heap pid (size : Int) p hnd hfind]
        omega
    · exact hg

theorem inv_deallocate (k : Kernel α) (pid : String) (h : KInv k) :
    KInv (deallocate_memory k pid).1 := by
  obtain ⟨hnd, hnn, hle, hcap⟩ := h
  unfold deallocate_memory
  cases hfind : findProc k pid with
  | none => exact ⟨hnd, hnn, hle, hcap⟩
  | some p =>
    dsimp only
    by_cases hpos : p.memory_allocated > 0
    · rw [if_pos hpos]
      have hfind' : k.heap.find? (fun q => q.pid == pid) = some p := hfind
      unfold KInv sumAlloc at *
      refine ⟨?_, ?_, ?_, ?_⟩ <;> dsimp only
      · rw [map_update_field k.heap pid
          (fun q => { q with memory_allocated := (0 : Int) })
          (fun p => p.pid) (fun p => rfl)]
        exact hnd
      · exact nonneg_mem_update k.heap pid 0 le_rfl hnn
      · rw [sum_mem_update k.heap pid 0 p hnd hfind']
        omega
      · omega
    · rw [if_neg hpos]
      exact ⟨hnd, hnn, hle, hcap⟩

theorem inv_append_fresh (k : Kernel α) (p0 : Process) (h : KInv k)
    (hfresh : findProc k p0.pid = none) (hmem : p0.memory_allocated = 0) :
    KInv { k with heap := k.heap ++ [p0] } := by
  obtain ⟨hnd, hnn, hle, hcap⟩ := h
  have hnotin : p0.pid ∉ k.heap.map (fun p => p.pid) := by
    intro hmem2
    rw [List.mem_map] at hmem2
    obtain ⟨q, hq, hqe⟩ := hmem2
    have := List.find?_eq_none.mp hfresh q hq
    simp [hqe] at this
  unfold KInv sumAlloc at *
  refine ⟨?_, ?_, ?_, ?_⟩ <;> dsimp only
  · rw [List.map_append, List.nodup_append]
    refine ⟨hnd, List.nodup_singleton _, ?_⟩
    intro x hx hx2
    rw [List.mem_map] at hx
    obtain ⟨q, hq, rfl⟩ := hx
    simp only [List.map_cons, List.map_nil, List.mem_singleton] at hx2
    exact hnotin (hx2 ▸ List.mem_map_of_mem (fun p => p.pid) hq)
  · intro q hq
    rw [List.mem_append] at hq
    cases hq with
    | inl hq => exact hnn q hq
    | inr hq =>
      have hq0 : q = p0 := by simpa using hq
      rw [hq0, hmem]
  · rw [List.map_append, List.sum_append]
    simp only [List.map_cons, List.map_nil, List.sum_cons, List.sum_nil, hmem]
    omega
  · exact hcap

theorem inv_create (k : Kernel α) (pid name : String) (priority : Int)
    (now : Nat) (h : KInv k) (hfresh : findProc k pid = none) :
    KInv (create_process k pid name priority now).1 := by
  have h1 : KInv { k with heap := k.heap ++
      [{ pid := pid, name := name, priority := priority, state := .ready
         memory_allocated := 0, created_at := now }] } :=
    inv_append_fresh k _ h hfresh rfl
  have h2 : KInv (allocate_memory { k with heap := k.heap ++
      [{ pid := pid, name := name, priority := priority, state := .ready
         memory_allocated := 0, created_at := now }] } pid 1024).1 :=
    inv_allocate _ pid 1024 h1
  unfold create_process
  dsimp only
  cases halloc : allocate_memory { k with heap := k.heap ++
      [{ pid := pid, name := name, priority := priority, state := .ready
         memory_allocated := 0, created_at := now }] } pid 1024 with
  | mk k2 b =>
    rw [halloc] at h2
    cases b
    · exact h
    · exact h2

theorem inv_state_update (k : Kernel α) (pid : String) (h : KInv k) :
    KInv { k with heap := k.heap.map (fun p =>
      if p.pid == pid then { p with state := .terminated } else p) } := by
  obtain ⟨hnd, hnn, hle, hcap⟩ := h
  unfold KInv sumAlloc at *
  refine ⟨?_, ?_, ?_, ?_⟩ <;> dsimp only
  · rw [map_update_field k.heap pid
      (fun p => { p with state := ProcessState.terminated })
      (fun p => p.pid) (fun p => rfl)]
    exact hnd
  · intro q hq
    rw [List.mem_map] at hq
    obtain ⟨p, hp, rfl⟩ := hq
    cases hc : p.pid == pid
    · simpa [hc] using hnn p hp
    · simpa [hc] using hnn p hp
  · rw [map_update_field k.heap pid
      (fun p => { p with state := ProcessState.terminated })
      (fun p => p.memory_allocated) (fun p => rfl)]
    exact hle
  · exact hcap

theorem inv_terminate (k : Kernel α) (pid : String) (h : KInv k) :
    KInv (terminate_process k pid).1 := by
  unfold terminate_process
  by_cases hmem : pid ∈ k.table
  · rw [if_pos hmem]
    dsimp only
    exact inv_deallocate _ pid (inv_state_update k pid h)
  · rw [if_neg hmem]
    exact h

theorem inv_step (k : Kernel α) (op : MemOp) (h : KInv k) :
    KInv (stepOp k op) := by
  cases op with
  | newObj pid name priority now =>
    unfold stepOp
    dsimp only
    by_cases hf : (findProc k pid).isSome
    · rw [if_pos hf]; exact h
    · rw [if_neg hf]
      exact inv_append_fresh k _ h
        (Option.not_isSome_iff_eq_none.mp hf) rfl
  | alloc pid size =>
    unfold stepOp
    dsimp only
    by_cases hf : (findProc k pid).isSome
    · rw [if_pos hf]; exact inv_allocate k pid size h
    · rw [if_neg hf]; exact h
  | dealloc pid => exact inv_deallocate k pid h
  | createP pid name priority now =>
    unfold stepOp
    dsimp only
    by_cases hf : (findProc k pid).isSome
    · rw [if_pos hf]; exact h
    · rw [if_neg hf]
      exact inv_create k pid name priority now h
        (Option.not_isSome_iff_eq_none.mp hf)
  | termP pid => exact inv_terminate k pid h

theorem inv_init (α : Type) : KInv (initKernel α) := by
  unfold KInv initKernel sumAlloc
  norm_num

theorem inv_run (k : Kernel α) (ops : List MemOp) (h : KInv k) :
    KInv (runOps k ops) := by
  induction ops generalizing k with
  | nil => exact h
  | cons op rest ih => exact ih (stepOp k op) (inv_step k op h)

theorem find?_append_self (l : List Process) (p0 : Process) (pid : String)
    (hp : p0.pid = pid)
    (hfresh : l.find? (fun q => q.pid == pid) = none) :
    (l ++ [p0]).find? (fun q => q.pid == pid) = some p0 := by
  rw [List.find?_append, hfresh, Option.none_or]
  simp [List.find?_cons, hp]

theorem eq_allocate (k : Kernel α) (pid : String) (size : Nat) (p : Process)
    (hnd : (k.heap.map (fun q => q.pid)).Nodup)
    (hfind : k.heap.find? (fun q => q.pid == pid) = some p)
    (hp0 : p.memory_allocated = 0)
    (heq : sumAlloc k = k.memory_used) :
    sumAlloc (allocate_memory k pid size).1
      = (allocate_memory k pid size).1.memory_used := by
  unfold allocate_memory
  by_cases hg : k.memory_used + (size : Int) > k.memory_pool
  · rw [if_pos hg]; exact heq
  · rw [if_neg hg]
    unfold sumAlloc at *
    dsimp only
    rw [sum_mem_update k.heap pid (size : Int) p hnd hfind, hp0]
    omega

theorem eq_deallocate (k : Kernel α) (pid : String)
    (hnd : (k.heap.map (fun q => q.pid)).Nodup)
    (heq : sumAlloc k = k.memory_used) :
    sumAlloc (deallocate_memory k pid).1
      = (deallocate_memory k pid).1.memory_used := by
  unfold deallocate_memory
  cases hfind : findProc k pid with
  | none => exact heq
  | some p =>
    dsimp only
    by_cases hpos : p.memory_allocated > 0
    · rw [if_pos hpos]
      have hfind' : k.heap.find? (fun q => q.pid == pid) = some p := hfind
      unfold sumAlloc at *
      dsimp only
      rw [sum_mem_update k.heap pid 0 p hnd hfind']
      omega
    · rw [if_neg hpos]; exact heq

theorem eq_append_fresh (k : Kernel α) (p0 : Process)
    (hmem : p0.memory_allocated = 0)
    (heq : sumAlloc k = k.memory_used) :
    sumAlloc { k with heap := k.heap ++ [p0] }
      = ({ k with heap := k.heap ++ [p0] } : Kernel α).memory_used := by
  unfold sumAlloc at *
  dsimp only
  rw [List.map_append, List.sum_append]
  simp only [List.map_cons, List.map_nil, List.sum_cons, List.sum_nil, hmem]
  omega

theorem eq_create (k : Kernel α) (pid name : String) (priority : Int)
    (now : Nat) (h : KInv k) (hfresh : findProc k pid = none)
    (heq : sumAlloc k = k.memory_used) :
    sumAlloc (create_process k pid name priority now).1
      = (create_process k pid name priority now).1.memory_used := by
  have h1 : KInv { k with heap := k.heap ++
      [{ pid := pid, name := name, priority := priority, state := .ready
         memory_allocated := 0, created_at := now }] } :=
    inv_append_fresh k _ h hfresh rfl
  have hfind1 : ({ k with heap := k.heap ++
      [{ pid := pid, name := name, priority := priority, state := .ready
         memory_allocated := 0, created_at := now }] } : Kernel α).heap.find?
        (fun q => q.pid == pid)
      = some { pid := pid, name := name, priority := priority, state := .ready
               memory_allocated := 0, created_at := now } :=
    find?_append_self k.heap _ pid rfl hfresh
  have heq1 := eq_append_fresh k
    { pid := pid, name := name, priority := priority, state := .ready
      memory_allocated := 0, created_at := now } rfl heq
  have h2 := eq_allocate { k with heap := k.heap ++
      [{ pid := pid, name := name, priority := priority, state := .ready
         memory_allocated := 0, created_at := now }] } pid 1024 _
    h1.1 hfind1 rfl heq1
  unfold create_process
  dsimp only
  cases halloc : allocate_memory { k with heap := k.heap ++
      [{ pid := pid, name := name, priority := priority, state := .ready
         memory_allocated := 0, created_at := now }] } pid 1024 with
  | mk k2 b =>
    rw [halloc] at h2
    cases b
    · exact heq
    · exact h2

theorem eq_terminate (k : Kernel α) (pid : String) (h : KInv k)
    (heq : sumAlloc k = k.memory_used) :
    sumAlloc (terminate_process k pid).1
      = (terminate_process k pid).1.memory_used := by
  unfold terminate_process
  by_cases hmem : pid ∈ k.table
  · rw [if_pos hmem]
    dsimp only
    have h1 : KInv { k with heap := k.heap.map (fun p =>
        if p.pid == pid then { p with state := .terminated } else p) } :=
      inv_state_update k pid h
    have heq1 : sumAlloc { k with heap := k.heap.map (fun p =>
        if p.pid == pid then { p with state := .terminated } else p) }
        = ({ k with heap := k.heap.map (fun p =>
            if p.pid == pid then { p with state := .terminated } else p) }
          : Kernel α).memory_used := by
      unfold sumAlloc at *
      dsimp only
      rw [map_update_field k.heap pid
        (fun p => { p with state := ProcessState.terminated })
        (fun p => p.memory_allocated) (fun p => rfl)]
      exact heq
    exact eq_deallocate _ pid h1.1 heq1
  · rw [if_neg hmem]; exact heq

theorem eq_step (k : Kernel α) (op : MemOp) (h : KInv k)
    (heq : sumAlloc k = k.memory_used)
    (hok : allocTargetFree k op = true) :
    sumAlloc (stepOp k op) = (stepOp k op).memory_used := by
  cases op with
  | newObj pid name priority now =>
    unfold stepOp
    dsimp only
    by_cases hf : (findProc k pid).isSome
    · rw [if_pos hf]; exact heq
    · rw [if_neg hf]; exact eq_append_fresh k _ rfl heq
  | alloc pid size =>
    unfold stepOp
    dsimp only
    cases hfind : findProc k pid with
    | none => rw [if_neg (by simp)]; exact heq
    | some p =>
      rw [if_pos (show (some p).isSome = true from rfl)]
      unfold allocTargetFree at hok
      dsimp only at hok
      rw [hfind] at hok
      dsimp only at hok
      exact eq_allocate k pid size p h.1 hfind (eq_of_beq hok) heq
  | dealloc pid => exact eq_deallocate k pid h.1 heq
  | createP pid name priority now =>
    unfold stepOp
    dsimp only
    by_cases hf : (findProc k pid).isSome
    · rw [if_pos hf]; exact heq
    · rw [if_neg hf]
      exact eq_create k pid name priority now h
        (Option.not_isSome_iff_eq_none.mp hf) heq
  | termP pid => exact eq_terminate k pid h heq

theorem eq_run (k : Kernel α) (ops : List MemOp) (h : KInv k)
    (heq : sumAlloc k = k.memory_used)
    (hd : disciplined k ops = true) :
    sumAlloc (runOps k ops) = (runOps k ops).memory_used := by
  induction ops generalizing k with
  | nil => exact heq
  | cons op rest ih =>
    unfold disciplined at hd
    rw [Bool.and_eq_true] at hd
    exact ih (stepOp k op) (inv_step k op h) (eq_step k op h heq hd.1) hd.2

end MemTrace

namespace MemTrace

open Microkernel Aux

theorem dealloc_exact (k : Kernel α) (pid : String) (h : KInv k) :
    k.memory_used - (deallocate_memory k pid).1.memory_used
      = allocRecorded k pid := by
  obtain ⟨hnd, hnn, hle, hcap⟩ := h
  unfold deallocate_memory allocRecorded
  cases hfind : findProc k pid with
  | none => dsimp only; omega
  | some p =>
    dsimp only
    have hp0 : 0 ≤ p.memory_allocated :=
      hnn p (List.mem_of_find?_eq_some hfind)
    by_cases hpos : p.memory_allocated > 0
    · rw [if_pos hpos]
      dsimp only
      omega
    · rw [if_neg hpos]
      dsimp only
      omega

end MemTrace

namespace Msg

open Microkernel Aux

theorem send_message_queues (k : Kernel α) (f t : String) (payload : α)
    (now : Nat) (l : List (KMsg α)) (h : k.queues.lookup t = some l) :
    (send_message k f t payload now).2 = true ∧
    (send_message k f t payload now).1.queues.lookup t
      = some (l ++ [{ from_pid := f, to_pid := t, payload := payload
                      timestamp := now }]) := by
  unfold send_message
  rw [h]
  dsimp only
  exact ⟨rfl, lookup_map_value k.queues t
    (fun x => x ++ [{ from_pid := f, to_pid := t, payload := payload
                      timestamp := now }]) l h⟩

theorem receive_message_pop (k : Kernel α) (pid : String) (m : KMsg α)
    (rest : List (KMsg α)) (h : k.queues.lookup pid = some (m :: rest)) :
    (receive_message k pid).2 = some m ∧
    (receive_message k pid).1.queues.lookup pid = some rest := by
  unfold receive_message
  rw [h]
  dsimp only
  refine ⟨rfl, ?_⟩
  have h2 := lookup_map_value k.queues pid (fun x => x.tail) (m :: rest) h
  simpa using h2

theorem receive_message_empty (k : Kernel α) (pid : String)
    (h : k.queues.lookup pid = some []) :
    receive_message k pid = (k, none) := by
  unfold receive_message
  rw [h]

end Msg

namespace SemTrace

open IPC

theorem value_nonneg_step (s : Semaphore) (op : SemOp) (h : 0 ≤ s.value) :
    0 ≤ (semStep s op).value := by
  cases op with
  | acq pid t =>
    unfold semStep Semaphore.acquire
    dsimp only
    by_cases hv : s.value > 0
    · rw [if_pos hv]; dsimp only; omega
    · rw [if_neg hv]
      cases t
      · rw [if_neg (by simp)]; exact h
      · rw [if_pos rfl]; exact h
  | rel pid =>
    unfold semStep Semaphore.release
    dsimp only
    omega

theorem value_nonneg_run (s : Semaphore) (ops : List SemOp)
    (h : 0 ≤ s.value) : 0 ≤ (runSemOps s ops).value := by
  induction ops generalizing s with
  | nil => exact h
  | cons op rest ih => exact ih (semStep s op) (value_nonneg_step s op h)

end SemTrace

namespace Sched

open Microkernel

theorem mem_of_head? {γ : Type} {l : List γ} {a : γ}
    (h : l.head? = some a) : a ∈ l := by
  cases l with
  | nil => simp at h
  | cons x t =>
    simp only [List.head?_cons, Option.some.injEq] at h
    rw [← h]
    exact List.mem_cons_self x t

theorem select_none (r : Process) (rs : List Process) :
    select_next_process none (r :: rs)
      = (List.insertionSort schedLE (r :: rs)).head? := rfl

theorem select_some_not_mem (cur r : Process) (rs : List Process)
    (hc : cur ∉ List.insertionSort schedLE (r :: rs)) :
    select_next_process (some cur) (r :: rs)
      = (List.insertionSort schedLE (r :: rs)).head? := by
  unfold select_next_process
  dsimp only
  rw [if_neg hc]

theorem select_some_band (cur r : Process) (rs : List Process)
    (hc : cur ∈ List.insertionSort schedLE (r :: rs))
    (hb : 1 < ((List.insertionSort schedLE (r :: rs)).filter
        (fun p => p.priority == cur.priority)).length) :
    select_next_process (some cur) (r :: rs)
      = cyclicNextAfter ((List.insertionSort schedLE (r :: rs)).filter
          (fun p => p.priority == cur.priority)) cur := by
  unfold select_next_process
  dsimp only
  rw [if_pos hc, if_pos hb]
  rfl

theorem select_some_small (cur r : Process) (rs : List Process)
    (hc : cur ∈ List.insertionSort schedLE (r :: rs))
    (hb : ¬ 1 < ((List.insertionSort schedLE (r :: rs)).filter
        (fun p => p.priority == cur.priority)).length) :
    select_next_process (some cur) (r :: rs)
      = (List.insertionSort schedLE (r :: rs)).head? := by
  unfold select_next_process
  dsimp only
  rw [if_pos hc, if_neg hb]

end Sched

open Microkernel IPC Sched MemTrace SemTrace Msg Aux Witnesses

/-- C1: over every sequence of public memory operations (sizes are
non-negative by the `Nat` typing) starting from the initial pool state,
`memory_used` never goes negative and never exceeds the fixed capacity
`memory_pool`; `allocate_memory` returns `false` and changes nothing when
`used + size > capacity`; and `deallocate_memory` subtracts at most the
allocation currently recorded for the process. -/
theorem claim_C1 (α : Type) (ops : List MemOp) :
    (0 ≤ (runOps (initKernel α) ops).memory_used ∧
      (runOps (initKernel α) ops).memory_used
        ≤ (runOps (initKernel α) ops).memory_pool) ∧
    (∀ (k : Kernel α) (pid : String) (size : Nat),
      k.memory_used + (size : Int) > k.memory_pool →
      allocate_memory k pid size = (k, false)) ∧
    (∀ pid : String,
      (runOps (initKernel α) ops).memory_used
          - ((deallocate_memory (runOps (initKernel α) ops) pid).1).memory_used
        ≤ allocRecorded (runOps (initKernel α) ops) pid) := by
  have hinv : KInv (runOps (initKernel α) ops) :=
    inv_run (initKernel α) ops (inv_init α)
  obtain ⟨hnd, hnn, hle, hcap⟩ := hinv
  refine ⟨⟨?_, hcap⟩, ?_, ?_⟩
  · have h0 : 0 ≤ sumAlloc (runOps (initKernel α) ops) :=
      sumAlloc_nonneg _ hnn
    omega
  · intro k pid size hg
    unfold allocate_memory
    rw [if_pos hg]
  · intro pid
    rw [dealloc_exact (runOps (initKernel α) ops) pid ⟨hnd, hnn, hle, hcap⟩]

/-- C1 witness: a concrete run (create an object, allocate 100 bytes,
free it), a concrete over-capacity allocation, and a concrete
deallocation bound. -/
theorem claim_C1_witness :
    ((0 ≤ (runOps (initKernel Nat)
        [.newObj "p" "n" 1 0, .alloc "p" 100, .dealloc "p"]).memory_used ∧
      (runOps (initKernel Nat)
        [.newObj "p" "n" 1 0, .alloc "p" 100, .dealloc "p"]).memory_used
        ≤ (runOps (initKernel Nat)
            [.newObj "p" "n" 1 0, .alloc "p" 100, .dealloc "p"]).memory_pool) ∧
      (fullKernel.memory_used + ((2000000 : Nat) : Int) > fullKernel.memory_pool ∧
        allocate_memory fullKernel "x" 2000000 = (fullKernel, false)) ∧
      ((runOps (initKernel Nat)
          [.newObj "p" "n" 1 0, .alloc "p" 100, .dealloc "p"]).memory_used
          - ((deallocate_memory (runOps (initKernel Nat)
              [.newObj "p" "n" 1 0, .alloc "p" 100, .dealloc "p"]) "p").1).memory_used
        ≤ allocRecorded (runOps (initKernel Nat)
            [.newObj "p" "n" 1 0, .alloc "p" 100, .dealloc "p"]) "p")) := by
  have h := claim_C1 Nat [.newObj "p" "n" 1 0, .alloc "p" 100, .dealloc "p"]
  exact ⟨h.1,
    ⟨by decide, h.2.1 fullKernel "x" 2000000 (by decide)⟩,
    h.2.2 "p"⟩

/-- C2: whenever free memory is below the fixed 1024-byte per-process
quota, `create_process` fails (the raised exception is modelled by the
`none` result) and returns the kernel state unchanged — so no process or
inbox is inserted, `memory_used` is unchanged and `processes_created` is
not incremented. -/
theorem claim_C2 (α : Type) (k : Kernel α) (pid name : String)
    (priority : Int) (now : Nat)
    (h : k.memory_pool - k.memory_used < 1024) :
    create_process k pid name priority now = (k, none) := by
  unfold create_process
  dsimp only
  unfold allocate_memory
  rw [if_pos (by push_cast; omega)]

/-- C2 witness: creation on a kernel whose pool is exhausted. -/
theorem claim_C2_witness :
    fullKernel.memory_pool - fullKernel.memory_used < 1024 ∧
    create_process fullKernel "x" "app" 1 9 = (fullKernel, none) :=
  ⟨by decide, claim_C2 Nat fullKernel "x" "app" 1 9 (by decide)⟩

theorem findProc_pid {α : Type} (k : Kernel α) (t : String) (q : Process)
    (h : findProc k t = some q) : q.pid = t := by
  unfold findProc at h
  have h2 := @List.find?_some Process (fun p => p.pid == t) q k.heap h
  exact eq_of_beq h2

/-- C3: `terminate_process` on an id absent from the table returns `false`
and changes nothing; on a known id (with its live heap object and a
non-negative recorded allocation, as in every reachable state) it returns
`true`, the process no longer appears in `list_processes`, its message
queue is gone, and `memory_used` drops by exactly the recorded
allocation. -/
theorem claim_C3 (α : Type) (k : Kernel α) (pid : String) :
    (pid ∉ k.table → terminate_process k pid = (k, false)) ∧
    (∀ p : Process, pid ∈ k.table → findProc k pid = some p →
      0 ≤ p.memory_allocated →
      (terminate_process k pid).2 = true ∧
      (∀ q ∈ list_processes (terminate_process k pid).1, q.pid ≠ pid) ∧
      (terminate_process k pid).1.queues.lookup pid = none ∧
      (terminate_process k pid).1.memory_used
        = k.memory_used - p.memory_allocated) := by
  constructor
  · intro hmem
    unfold terminate_process
    rw [if_neg hmem]
  · intro p hmem hfind hp0
    unfold terminate_process
    rw [if_pos hmem]
    dsimp only
    refine ⟨rfl, ?_, ?_, ?_⟩
    · intro q hq
      unfold list_processes at hq
      rw [List.mem_filterMap] at hq
      obtain ⟨t, ht, hfq⟩ := hq
      dsimp only at ht
      rw [List.mem_filter] at ht
      have ht2 : t ≠ pid := of_decide_eq_true ht.2
      rw [findProc_pid _ t q hfq]
      exact ht2
    · exact lookup_filter_ne _ pid
    · have hfind1 : findProc { k with heap := k.heap.map (fun p =>
          if p.pid == pid then { p with state := .terminated } else p) } pid
          = some { p with state := ProcessState.terminated } := by
        show (k.heap.map (fun p =>
          if p.pid == pid then { p with state := ProcessState.terminated }
          else p)).find? (fun p => p.pid == pid) = _
        rw [find?_state_update k.heap pid ProcessState.terminated]
        rw [show k.heap.find? (fun p => p.pid == pid) = some p from hfind]
        rfl
      show (deallocate_memory { k with heap := k.heap.map (fun p =>
          if p.pid == pid then { p with state := .terminated } else p) }
            pid).1.memory_used
        = k.memory_used - p.memory_allocated
      unfold deallocate_memory
      rw [hfind1]
      dsimp only
      by_cases hpos :
          ({ p with state := ProcessState.terminated } : Process).memory_allocated > 0
      · rw [if_pos hpos]
      · rw [if_neg hpos]
        have hz : p.memory_allocated = 0 := by
          have hnp : ¬ p.memory_allocated > 0 := hpos
          omega
        dsimp only
        rw [hz]
        omega

/-- C3 witness: terminate the one created process, and terminate an
unknown pid. -/
theorem claim_C3_witness :
    ("ghost" ∉ oneProcKernel.table ∧
      terminate_process oneProcKernel "ghost" = (oneProcKernel, false)) ∧
    ("p1" ∈ oneProcKernel.table ∧
      findProc oneProcKernel "p1"
        = some { pid := "p1", name := "editor", priority := 1, state := .ready
                 memory_allocated := 1024, created_at := 5 } ∧
      (terminate_process oneProcKernel "p1").2 = true ∧
      (∀ q ∈ list_processes (terminate_process oneProcKernel "p1").1,
        q.pid ≠ "p1") ∧
      (terminate_process oneProcKernel "p1").1.queues.lookup "p1" = none ∧
      (terminate_process oneProcKernel "p1").1.memory_used
        = oneProcKernel.memory_used - (1024 : Int)) := by
  constructor
  · exact ⟨by decide, (claim_C3 Nat oneProcKernel "ghost").1 (by decide)⟩
  · have h := (claim_C3 Nat oneProcKernel "p1").2
      { pid := "p1", name := "editor", priority := 1, state := .ready
        memory_allocated := 1024, created_at := 5 }
      (by decide) (by decide) (by decide)
    exact ⟨by decide, by decide, h.1, h.2.1, h.2.2.1, h.2.2.2⟩

/-- C4: message delivery per receiver is FIFO in send order — sending
`A`, `B`, `C` to a live receiver whose inbox is empty and then receiving
four times yields `A`, `B`, `C`, and finally `none`. -/
theorem claim_C4 (α : Type) (k : Kernel α) (P fA fB fC : String)
    (A B C : α) (t1 t2 t3 : Nat) (h : k.queues.lookup P = some []) :
    (send_message k fA P A t1).2 = true ∧
    (send_message (send_message k fA P A t1).1 fB P B t2).2 = true ∧
    (send_message (send_message (send_message k fA P A t1).1 fB P B t2).1
      fC P C t3).2 = true ∧
    (receive_message (send_message (send_message
        (send_message k fA P A t1).1 fB P B t2).1 fC P C t3).1 P).2
      = some { from_pid := fA, to_pid := P, payload := A, timestamp := t1 } ∧
    (receive_message (receive_message (send_message (send_message
        (send_message k fA P A t1).1 fB P B t2).1 fC P C t3).1 P).1 P).2
      = some { from_pid := fB, to_pid := P, payload := B, timestamp := t2 } ∧
    (receive_message (receive_message (receive_message
        (send_message (send_message (send_message k fA P A t1).1
          fB P B t2).1 fC P C t3).1 P).1 P).1 P).2
      = some { from_pid := fC, to_pid := P, payload := C, timestamp := t3 } ∧
    (receive_message (receive_message (receive_message (receive_message
        (send_message (send_message (send_message k fA P A t1).1
          fB P B t2).1 fC P C t3).1 P).1 P).1 P).1 P).2 = none := by
  obtain ⟨hs1, hq1⟩ := send_message_queues k fA P A t1 [] h
  rw [List.nil_append] at hq1
  obtain ⟨hs2, hq2⟩ := send_message_queues _ fB P B t2 _ hq1
  simp only [List.cons_append, List.nil_append] at hq2
  obtain ⟨hs3, hq3⟩ := send_message_queues _ fC P C t3 _ hq2
  simp only [List.cons_append, List.nil_append] at hq3
  obtain ⟨hr1, hq4⟩ := receive_message_pop _ P _ _ hq3
  obtain ⟨hr2, hq5⟩ := receive_message_pop _ P _ _ hq4
  obtain ⟨hr3, hq6⟩ := receive_message_pop _ P _ _ hq5
  have hr4 := receive_message_empty _ P hq6
  exact ⟨hs1, hs2, hs3, hr1, hr2, hr3, by rw [hr4]⟩

/-- C4 witness: the scenario on the kernel with the one fresh process. -/
theorem claim_C4_witness :
    oneProcKernel.queues.lookup "p1" = some [] ∧
    (receive_message (send_message (send_message
        (send_message oneProcKernel "s" "p1" 10 1).1 "s" "p1" 20 2).1
          "s" "p1" 30 3).1 "p1").2
      = some { from_pid := "s", to_pid := "p1", payload := 10, timestamp := 1 } :=
  ⟨by decide,
    (claim_C4 Nat oneProcKernel "p1" "s" "s" "s" 10 20 30 1 2 3
      (by decide)).2.2.2.1⟩

/-- C5 (counterexample to the claim as stated): on a concrete manager
with one pipe `"p"` (reader `"r"`, empty queue), the unknown-name read,
the unauthorized read and the empty-queue read all return the same value
`none` — the three failure outcomes are not mutually distinguishable in
the returned value. -/
theorem claim_C5_counterexample :
    (IPCManager.read_pipe onePipeManager "nosuch" "r").2 = none ∧
    (IPCManager.read_pipe onePipeManager "p" "intruder").2 = none ∧
    (IPCManager.read_pipe onePipeManager "p" "r").2 = none ∧
    ¬ ((IPCManager.read_pipe onePipeManager "nosuch" "r").2
          ≠ (IPCManager.read_pipe onePipeManager "p" "intruder").2 ∧
        (IPCManager.read_pipe onePipeManager "p" "intruder").2
          ≠ (IPCManager.read_pipe onePipeManager "p" "r").2 ∧
        (IPCManager.read_pipe onePipeManager "nosuch" "r").2
          ≠ (IPCManager.read_pipe onePipeManager "p" "r").2) := by
  decide

/-- C5 (amended): every pipe-read failure — unknown pipe name, caller not
in the reader list, or empty queue past the timeout — returns the same
value `none`, so the error kinds are indistinguishable to the caller in
the returned value (they differ only in the logged text). -/
theorem claim_C5 (α : Type) (m : IPCManager α)
    (pipe_name process_id : String) :
    (m.pipes.lookup pipe_name = none →
      IPCManager.read_pipe m pipe_name process_id = (m, none)) ∧
    (∀ p : Pipe α, m.pipes.lookup pipe_name = some p →
      process_id ∉ p.readers →
      (IPCManager.read_pipe m pipe_name process_id).2 = none) ∧
    (∀ p : Pipe α, m.pipes.lookup pipe_name = some p →
      process_id ∈ p.readers → p.queue = [] →
      (IPCManager.read_pipe m pipe_name process_id).2 = none) := by
  refine ⟨?_, ?_, ?_⟩
  · intro h
    unfold IPCManager.read_pipe
    rw [h]
  · intro p h hr
    unfold IPCManager.read_pipe
    rw [h]
    dsimp only
    unfold Pipe.read
    rw [if_pos hr]
  · intro p h hr hq
    unfold IPCManager.read_pipe
    rw [h]
    dsimp only
    unfold Pipe.read
    rw [if_neg (not_not_intro hr), hq]

/-- C5 witness: the three failure modes on the concrete one-pipe
manager. -/
theorem claim_C5_witness :
    (onePipeManager.pipes.lookup "nosuch" = none ∧
      IPCManager.read_pipe onePipeManager "nosuch" "r"
        = (onePipeManager, none)) ∧
    ((IPCManager.read_pipe onePipeManager "p" "intruder").2 = none) ∧
    ((IPCManager.read_pipe onePipeManager "p" "r").2 = none) := by
  refine ⟨⟨by decide, (claim_C5 Nat onePipeManager "nosuch" "r").1 (by decide)⟩,
    ?_, ?_⟩
  · exact (claim_C5 Nat onePipeManager "p" "intruder").2.1
      { name := "p", max_size := 100, queue := [], readers := ["r"]
        writers := [] } (by decide) (by decide)
  · exact (claim_C5 Nat onePipeManager "p" "r").2.2
      { name := "p", max_size := 100, queue := [], readers := ["r"]
        writers := [] } (by decide) (by decide) (by decide)

/-- C6: shared-memory `read`/`write` by an id outside the segment's
authorization list always fail (`none` / `false`) leaving the segment —
data included — unchanged; for an authorized id, `write p k v` returns
`true` and an immediately following `read p k` returns exactly `v`. -/
theorem claim_C6 (α : Type) (s : SharedMemory α) (process_id key : String)
    (v : α) :
    (process_id ∉ s.authorized_processes →
      SharedMemory.read s process_id key = (s, none) ∧
      SharedMemory.write s process_id key v = (s, false)) ∧
    (process_id ∈ s.authorized_processes →
      (SharedMemory.write s process_id key v).2 = true ∧
      ((SharedMemory.write s process_id key v).1.read process_id key).2
        = some v) := by
  constructor
  · intro h
    constructor
    · unfold SharedMemory.read
      rw [if_pos h]
    · unfold SharedMemory.write
      rw [if_pos h]
  · intro h
    unfold SharedMemory.write
    rw [if_neg (not_not_intro h)]
    refine ⟨rfl, ?_⟩
    unfold SharedMemory.read
    dsimp only
    rw [if_neg (not_not_intro h)]
    dsimp only
    rw [lookup_dictSet s.data key v]

/-- C6 witness: the authorized/unauthorized round-trip on the concrete
segment. -/
theorem claim_C6_witness :
    ("b" ∉ oneAuthSeg.authorized_processes ∧
      SharedMemory.read oneAuthSeg "b" "k" = (oneAuthSeg, none) ∧
      SharedMemory.write oneAuthSeg "b" "k" 7 = (oneAuthSeg, false)) ∧
    ("a" ∈ oneAuthSeg.authorized_processes ∧
      (SharedMemory.write oneAuthSeg "a" "k" 7).2 = true ∧
      ((SharedMemory.write oneAuthSeg "a" "k" 7).1.read "a" "k").2
        = some 7) := by
  have h := claim_C6 Nat oneAuthSeg "b" "k" 7
  have h2 := claim_C6 Nat oneAuthSeg "a" "k" 7
  exact ⟨⟨by decide, h.1 (by decide)⟩, ⟨by decide, h2.2 (by decide)⟩⟩

/-- C7 (counterexample to the claim as stated): `allocate_memory`
*overwrites* `memory_allocated` instead of accumulating it, so after
allocating 100 and then 200 bytes to the same process, the pool records
300 used bytes while the process ledger records only 200 — the used
counter does not equal the ledger sum after this sequence of public
memory operations. -/
theorem claim_C7_counterexample :
    ¬ ((runOps (initKernel Nat)
          [.newObj "p" "n" 1 0, .alloc "p" 100, .alloc "p" 200]).memory_used
        = sumAlloc (runOps (initKernel Nat)
          [.newObj "p" "n" 1 0, .alloc "p" 100, .alloc "p" 200])) := by
  decide

/-- C7 (amended): provided `allocate_memory` is never called on a process
that already holds a nonzero allocation (the discipline the kernel itself
follows — it allocates exactly once, from `create_process`), the pool's
used counter equals the sum of `memory_allocated` over all process
objects after every sequence of public memory operations; and
`deallocate_memory` then returns to the pool exactly the allocation
recorded for the process. -/
theorem claim_C7 (α : Type) (ops : List MemOp)
    (hd : disciplined (initKernel α) ops = true) :
    (runOps (initKernel α) ops).memory_used
      = sumAlloc (runOps (initKernel α) ops) ∧
    (∀ pid : String,
      (runOps (initKernel α) ops).memory_used
          - ((deallocate_memory (runOps (initKernel α) ops) pid).1).memory_used
        = allocRecorded (runOps (initKernel α) ops) pid) := by
  have hinv : KInv (runOps (initKernel α) ops) :=
    inv_run (initKernel α) ops (inv_init α)
  refine ⟨(eq_run (initKernel α) ops (inv_init α) rfl hd).symm, ?_⟩
  intro pid
  exact dealloc_exact (runOps (initKernel α) ops) pid hinv

/-- C7 witness: a disciplined run — create, allocate, free, allocate
again on the now-empty process. -/
theorem claim_C7_witness :
    disciplined (initKernel Nat)
      [.newObj "p" "n" 1 0, .alloc "p" 100, .dealloc "p", .alloc "p" 50]
      = true ∧
    (runOps (initKernel Nat)
      [.newObj "p" "n" 1 0, .alloc "p" 100, .dealloc "p", .alloc "p" 50]).memory_used
      = sumAlloc (runOps (initKernel Nat)
        [.newObj "p" "n" 1 0, .alloc "p" 100, .dealloc "p", .alloc "p" 50]) :=
  ⟨by decide,
    (claim_C7 Nat
      [.newObj "p" "n" 1 0, .alloc "p" 100, .dealloc "p", .alloc "p" 50]
      (by decide)).1⟩

/-- C8: a semaphore created with a non-negative initial value keeps a
non-negative count under every sequence of acquire/release interactions;
`acquire` leaves the count unchanged and returns `false` when the count
is not strictly positive, and (when parking without a timeout) tracks the
caller in the waiting list. -/
theorem claim_C8 (name : String) (initial_value : Int)
    (ops : List SemOp) (h : 0 ≤ initial_value) :
    0 ≤ (runSemOps (mkSemaphore name initial_value) ops).value ∧
    (∀ (s : Semaphore) (process_id : String) (timeout : Bool),
      ¬ 0 < s.value →
      ((s.acquire process_id timeout).1.value = s.value ∧
        (s.acquire process_id timeout).2 = false ∧
        (timeout = false →
          process_id ∈ (s.acquire process_id timeout).1.waiting_processes))) := by
  constructor
  · exact value_nonneg_run (mkSemaphore name initial_value) ops h
  · intro s process_id timeout hv
    unfold Semaphore.acquire
    rw [if_neg hv]
    cases timeout
    · rw [if_neg (by simp)]
      refine ⟨rfl, rfl, ?_⟩
      intro _
      dsimp only
      by_cases hin : process_id ∈ s.waiting_processes
      · rw [if_pos hin]; exact hin
      · rw [if_neg hin]
        simp
    · rw [if_pos rfl]
      exact ⟨rfl, rfl, by intro h2; cases h2⟩

/-- C8 witness: value 1, acquire, release, then a timed-out acquire on
the empty semaphore. -/
theorem claim_C8_witness :
    (0 ≤ (1 : Int)) ∧
    0 ≤ (runSemOps (mkSemaphore "s" 1)
      [.acq "a" false, .acq "b" true, .rel "a", .acq "b" true]).value :=
  ⟨by decide,
    (claim_C8 "s" 1 [.acq "a" false, .acq "b" true, .rel "a", .acq "b" true]
      (by decide)).1⟩

/-- C9: on a non-empty ready set the base scheduler orders the ready
processes by priority descending then creation time ascending (the sorted
list is a sorted permutation of the ready set); when a current process
exists in the ready set and its priority band in that order holds more
than one process, it returns the cyclically next band member after the
current one; in every other case it returns the first entry of the sorted
order; and the selection always comes from the ready set. -/
theorem claim_C9 (current : Option Process) (ready : List Process)
    (h : ready ≠ []) :
    ((List.insertionSort schedLE ready).Perm ready ∧
      List.Sorted schedLE (List.insertionSort schedLE ready)) ∧
    (∀ cur : Process, current = some cur → cur ∈ ready →
      1 < ((List.insertionSort schedLE ready).filter
          (fun p => p.priority == cur.priority)).length →
      select_next_process current ready
        = cyclicNextAfter ((List.insertionSort schedLE ready).filter
            (fun p => p.priority == cur.priority)) cur) ∧
    (∀ cur : Process, current = some cur → cur ∈ ready →
      ¬ 1 < ((List.insertionSort schedLE ready).filter
          (fun p => p.priority == cur.priority)).length →
      select_next_process current ready
        = (List.insertionSort schedLE ready).head?) ∧
    (∀ cur : Process, current = some cur → cur ∉ ready →
      select_next_process current ready
        = (List.insertionSort schedLE ready).head?) ∧
    (current = none →
      select_next_process current ready
        = (List.insertionSort schedLE ready).head?) ∧
    (∀ p : Process, select_next_process current ready = some p →
      p ∈ ready) := by
  obtain ⟨r, rs, rfl⟩ := List.exists_cons_of_ne_nil h
  have hperm : (List.insertionSort schedLE (r :: rs)).Perm (r :: rs) :=
    List.perm_insertionSort schedLE (r :: rs)
  refine ⟨⟨hperm, List.sorted_insertionSort schedLE (r :: rs)⟩,
    ?_, ?_, ?_, ?_, ?_⟩
  · intro cur hcur hmem hband
    subst hcur
    exact select_some_band cur r rs (hperm.mem_iff.mpr hmem) hband
  · intro cur hcur hmem hband
    subst hcur
    exact select_some_small cur r rs (hperm.mem_iff.mpr hmem) hband
  · intro cur hcur hmem
    subst hcur
    exact select_some_not_mem cur r rs (fun hx => hmem (hperm.mem_iff.mp hx))
  · intro hcur
    subst hcur
    exact select_none r rs
  · intro p hp
    cases current with
    | none =>
      rw [select_none r rs] at hp
      exact hperm.mem_iff.mp (mem_of_head? hp)
    | some cur =>
      by_cases hmem : cur ∈ List.insertionSort schedLE (r :: rs)
      · by_cases hband : 1 < ((List.insertionSort schedLE (r :: rs)).filter
            (fun q => q.priority == cur.priority)).length
        · rw [select_some_band cur r rs hmem hband] at hp
          unfold cyclicNextAfter at hp
          exact hperm.mem_iff.mp
            (List.mem_of_mem_filter (mem_of_getElem?_eq_some hp))
        · rw [select_some_small cur r rs hmem hband] at hp
          exact hperm.mem_iff.mp (mem_of_head? hp)
      · rw [select_some_not_mem cur r rs hmem] at hp
        exact hperm.mem_iff.mp (mem_of_head? hp)

/-- C9 witness: current `pw1` in the two-element priority-2 band of three
ready processes; the scheduler advances to `pw2`. -/
theorem claim_C9_witness :
    ([pw3, pw1, pw2] ≠ ([] : List Process)) ∧
    select_next_process (some pw1) [pw3, pw1, pw2]
      = cyclicNextAfter ((List.insertionSort schedLE [pw3, pw1, pw2]).filter
          (fun p => p.priority == pw1.priority)) pw1 ∧
    cyclicNextAfter ((List.insertionSort schedLE [pw3, pw1, pw2]).filter
        (fun p => p.priority == pw1.priority)) pw1 = some pw2 := by
  refine ⟨by decide, ?_, by decide⟩
  exact (claim_C9 (some pw1) [pw3, pw1, pw2] (by decide)).2.1 pw1 rfl
    (by decide) (by decide)

/-- C10: the kernel-level `send_message` never validates the sender — it
succeeds and appends to the receiver's queue whenever the receiver id has
a live inbox, for any sender id whatsoever; the IPC manager's
`send_message`, by contrast, fails whenever the sender does not exist in
the process table. -/
theorem claim_C10 (α : Type) :
    (∀ (k : Kernel α) (from_pid to_pid : String) (payload : α) (now : Nat)
        (l : List (KMsg α)),
      k.queues.lookup to_pid = some l →
      (send_message k from_pid to_pid payload now).2 = true ∧
      (send_message k from_pid to_pid payload now).1.queues.lookup to_pid
        = some (l ++ [{ from_pid := from_pid, to_pid := to_pid
                        payload := payload, timestamp := now }])) ∧
    (∀ (m : IPCManager α) (k : Kernel α) (sender receiver : String)
        (data : α) (mt : String) (now : Nat),
      get_process k sender = none →
      IPCManager.send_message m k sender receiver data mt now
        = (m, false)) := by
  constructor
  · intro k f t payload now l h
    exact send_message_queues k f t payload now l h
  · intro m k sender receiver data mt now h
    unfold IPCManager.send_message
    rw [if_pos (Or.inl (by rw [h]; rfl))]

/-- C10 witness: a ghost sender delivers through the kernel to the one
live inbox, while the IPC manager rejects the same ghost sender. -/
theorem claim_C10_witness :
    (oneProcKernel.queues.lookup "p1" = some [] ∧
      get_process oneProcKernel "ghost" = none ∧
      (send_message oneProcKernel "ghost" "p1" 5 1).2 = true) ∧
    IPCManager.send_message (initIPCManager Nat) oneProcKernel "ghost"
      "p1" 5 "data" 1 = (initIPCManager Nat, false) := by
  have h := claim_C10 Nat
  exact ⟨⟨by decide, by decide,
      (h.1 oneProcKernel "ghost" "p1" 5 1 [] (by decide)).1⟩,
    h.2 (initIPCManager Nat) oneProcKernel "ghost" "p1" 5 "data" 1
      (by decide)⟩
